import Mathlib

/-!
Verification development for the dodgeball-sale point-of-sale backend.

The embedding follows the JavaScript source:
* `src/server/mariadb.js` : order submission inside a single SQL transaction,
  order read-back with a LEFT JOIN and regrouping, catalog item validation,
  PBKDF2 password check, in-memory admin token store;
* `src/server/firestore.js` : the alternative document-store backend, whose
  counter increment runs in its own transaction;
* the HTTP entry file : the per-client login throttle state machine.

Database tables are modelled as lists holding rows in insertion order
(AUTO_INCREMENT primary keys are ascending in that order), so the SQL
clause ORDER BY id DESC is list reversal and ORDER BY id ASC keeps the
stored order. JavaScript numbers that the code only adds and multiplies
are modelled as `Int` (currency amounts, quantities) or `Nat` (counters,
clock instants in milliseconds).
-/

namespace DodgeballSale

/-- JavaScript `String.prototype.padStart(len, c)`: left-pad with `c` up to
length `len`; strings already at least that long are returned unchanged. -/
def padStart (s : String) (len : Nat) (c : Char) : String :=
  ⟨List.replicate (len - s.length) c ++ s.data⟩

/-- Numeric value of a decimal digit character. -/
def digitVal (c : Char) : Nat := c.toNat - 48

/-- Value of a list of decimal digit characters, most significant first. -/
def strVal (l : List Char) : Nat := l.foldl (fun a c => a * 10 + digitVal c) 0

/-- Decimal digit characters of a natural number, most significant first.
This is a structurally transparent reformulation of `Nat.toDigits 10`,
proved equal to it below. -/
def decDigits (n : Nat) : List Char :=
  if h : n < 10 then [Nat.digitChar n]
  else
    have : n / 10 < n := Nat.div_lt_self (by omega) (by omega)
    decDigits (n / 10) ++ [Nat.digitChar (n % 10)]

/-- The order identifier assigned to counter value `newCount` in both
backends: `newCount.toString().padStart(4, "0")`. -/
def formatOrderId (newCount : Nat) : String :=
  padStart (Nat.repr newCount) 4 '0'

/-- A line item in a submitted order, as sent by the client:
`{ name, qty, price }`. -/
structure OrderItem where
  name : String
  qty : Int
  price : Int
deriving DecidableEq, Repr

/-- The order-submission payload `orderData`:
`{ totalAmount, paymentType, items }`. -/
structure OrderData where
  totalAmount : Int
  paymentType : String
  items : List OrderItem
deriving DecidableEq, Repr

namespace Maria

/-- A row of the relational `orders` table. The AUTO_INCREMENT primary key
is the position in the containing list; `timestamp` is the DATETIME column
filled by the database clock at insertion (milliseconds). -/
structure OrderRow where
  orderId : String
  totalAmount : Int
  paymentType : String
  status : String
  timestamp : Nat
deriving DecidableEq, Repr

/-- A row of the relational `transactions` table (one line item). -/
structure TxRow where
  orderId : String
  item : String
  quantity : Int
  total : Int
deriving DecidableEq, Repr

/-- The relational store. `counter` is the `count` column of the
`meta` row with id `counter`. Row lists hold rows in insertion order,
which is ascending primary-key order. -/
structure Db where
  counter : Nat
  orders : List OrderRow
  transactions : List TxRow
deriving DecidableEq, Repr

/-- One SQL write issued inside the order-submission transaction. -/
inductive TxnOp where
  | setCounter (newCount : Nat)
  | insertOrder (row : OrderRow)
  | insertTx (row : TxRow)
deriving DecidableEq, Repr

/-- Effect of a single staged write on the store. -/
def applyOp (db : Db) : TxnOp → Db
  | .setCounter n => { db with counter := n }
  | .insertOrder row => { db with orders := db.orders ++ [row] }
  | .insertTx row => { db with transactions := db.transactions ++ [row] }

/-- Run the staged writes of the transaction one by one over the pending
state. `failAt = some k` makes the query numbered `k` throw; `step` is the
number of the next query to run. Returns `none` when a step threw (the
connection then rolls back) and otherwise the pending state to commit. -/
def runTxnOps (pending : Db) (ops : List TxnOp) (step : Nat) (failAt : Option Nat) : Option Db :=
  match ops with
  | [] => some pending
  | op :: rest =>
    if failAt = some step then none
    else runTxnOps (applyOp pending op) rest (step + 1) failAt

/-- The writes staged by `submitOrder` for payload `orderData` when the
locked counter read returned `current`, in the order the code issues them:
counter update, order-header insert, one insert per line item with the
line total computed as `item.price * item.qty`. -/
def submitOps (orderData : OrderData) (current : Nat) (now : Nat) : List TxnOp :=
  let newCount := current + 1
  let newOrderId := formatOrderId newCount
  let status := if orderData.paymentType = "Venmo" then "pending" else "paid"
  [TxnOp.setCounter newCount,
   TxnOp.insertOrder ⟨newOrderId, orderData.totalAmount, orderData.paymentType, status, now⟩]
  ++ orderData.items.map (fun it => TxnOp.insertTx ⟨newOrderId, it.name, it.qty, it.price * it.qty⟩)

/-- `submitOrder` of the relational backend. All queries between
`beginTransaction` and `commit` run on one connection; on any thrown error
the catch block calls `rollback`, so the committed store is unchanged and
the error is re-thrown to the caller. Query numbering for fault injection:
step 0 is the locked counter SELECT, steps 1 .. 2+n are the writes of
`submitOps` (n = number of line items), step 3+n is the COMMIT itself.
Returns the committed store paired with either the thrown error or the
response value `{ ...orderData, orderId }`. -/
def submitOrder (failAt : Option Nat) (now : Nat) (orderData : OrderData) (db : Db) :
    Db × Except String (OrderData × String) :=
  if failAt = some 0 then
    (db, .error "counter select failed; transaction rolled back")
  else
    let current := db.counter
    let newCount := current + 1
    let newOrderId := formatOrderId newCount
    let ops := submitOps orderData current now
    match runTxnOps db ops 1 failAt with
    | none => (db, .error "query failed; transaction rolled back")
    | some pending =>
      if failAt = some (1 + ops.length) then
        (db, .error "commit failed; transaction rolled back")
      else
        (pending, .ok (orderData, newOrderId))

/-- Sequential execution of a batch of submissions. The counter row is
read under SELECT ... FOR UPDATE inside each transaction, so concurrent
submissions are serialized by the row lock and any concurrent batch runs
as some sequence of complete submissions. For each submission, in commit
order, we record the counter value it observed and the order ID it was
assigned. -/
def runBatch (now : Nat) (db : Db) (ods : List OrderData) : Db × List (Nat × String) :=
  match ods with
  | [] => (db, [])
  | od :: rest =>
    match submitOrder none now od db with
    | (db1, .ok (_, oid)) =>
      let r := runBatch now db1 rest
      (r.1, (db.counter, oid) :: r.2)
    | (db1, .error _) =>
      let r := runBatch now db1 rest
      (r.1, r.2)

/-- One row of the result set of the getOrders query: order columns joined
with the (nullable) line-item columns of the LEFT JOIN. -/
structure JoinRow where
  orderId : String
  totalAmount : Int
  paymentType : String
  status : String
  timestamp : Nat
  item : Option String
  quantity : Option Int
  itemTotal : Option Int
deriving DecidableEq, Repr

/-- A line item of the response of getOrders. -/
structure ItemOut where
  name : String
  qty : Int
  total : Int
deriving DecidableEq, Repr

/-- An order of the response of getOrders. -/
structure OrderOut where
  orderId : String
  totalAmount : Int
  paymentType : String
  status : String
  timestamp : Nat
  items : List ItemOut
deriving DecidableEq, Repr

/-- The join row produced for order `o` and a matching transactions row
`t`. -/
def rowOf (o : OrderRow) (t : TxRow) : JoinRow :=
  ⟨o.orderId, o.totalAmount, o.paymentType, o.status, o.timestamp,
   some t.item, some t.quantity, some t.total⟩

/-- The join row produced for an order with no matching transactions row:
the line-item columns are NULL. -/
def nullRowOf (o : OrderRow) : JoinRow :=
  ⟨o.orderId, o.totalAmount, o.paymentType, o.status, o.timestamp, none, none, none⟩

/-- The rows the join produces for one order: its matching transactions
in stored (primary key ascending) order, or a single NULL row when there
is no match. -/
def blockOf (db : Db) (o : OrderRow) : List JoinRow :=
  match db.transactions.filter (fun t => t.orderId = o.orderId) with
  | [] => [nullRowOf o]
  | ts => ts.map (rowOf o)

/-- Result set of the SQL query of getOrders:
LEFT JOIN of orders with transactions on orderId,
ORDER BY o.id DESC, t.id ASC. Row lists are stored in ascending
primary-key order, so the DESC order clause reverses the orders list and
the ASC clause keeps the stored order of each matching transaction group.
An order with no matching transaction contributes one row with NULL
line-item columns. -/
def leftJoinRows (db : Db) : List JoinRow :=
  db.orders.reverse.flatMap (blockOf db)

/-- One iteration of the grouping loop of getOrders over the insertion-
ordered map `ordersMap`, modelled as a list of entries in insertion order.
A row whose `item` column is NULL or the empty string is skipped by the
JavaScript truthiness test `if (row.item)`. -/
def groupStep (acc : List OrderOut) (row : JoinRow) : List OrderOut :=
  let acc1 :=
    if acc.any (fun o => o.orderId = row.orderId) then acc
    else acc ++ [⟨row.orderId, row.totalAmount, row.paymentType, row.status, row.timestamp, []⟩]
  match row.item with
  | none => acc1
  | some it =>
    if it = "" then acc1
    else acc1.map (fun o =>
      if o.orderId = row.orderId then
        { o with items := o.items ++ [⟨it, row.quantity.getD 0, row.itemTotal.getD 0⟩] }
      else o)

/-- getOrders of the relational backend: run the join query and regroup
rows into orders, preserving first-seen order of orderIds. -/
def getOrders (db : Db) : List OrderOut :=
  (leftJoinRows db).foldl groupStep []

/-- The fresh map entry created the first time an orderId is seen. -/
def freshOf (row : JoinRow) : OrderOut :=
  ⟨row.orderId, row.totalAmount, row.paymentType, row.status, row.timestamp, []⟩

/-- The response line item built from a stored transactions row. -/
def itemOutOf (t : TxRow) : ItemOut :=
  ⟨t.item, t.quantity, t.total⟩

/-- The response order that regrouping produces for stored order `o`: its
own columns with, in stored order, those of its transactions rows whose
item name is not empty. -/
def outOf (db : Db) (o : OrderRow) : OrderOut :=
  ⟨o.orderId, o.totalAmount, o.paymentType, o.status, o.timestamp,
   ((db.transactions.filter (fun t => t.orderId = o.orderId)).filter
      (fun t => ¬ t.item = "")).map itemOutOf⟩

/-- A catalog-item payload as received over HTTP. A field of the payload
object may be absent; `none` models an absent (or non-string) field. The
`price` field is modelled after `Number(price)`: `none` stands for a value
whose conversion is NaN (absent field or unparseable string), `some p` for
a numeric value. -/
structure ItemInput where
  tab : Option String
  category : Option String
  name : Option String
  dataName : Option String
  price : Option Int
deriving DecidableEq, Repr

/-- JavaScript `String.prototype.trim()`: strip whitespace from both
ends, written over the character list so that it evaluates by
computation. -/
def jsTrim (s : String) : String :=
  ⟨((s.data.dropWhile Char.isWhitespace).reverse.dropWhile Char.isWhitespace).reverse⟩

/-- Truthiness-plus-trim test of validateItemFields for the string fields:
the field fails when it is absent or blank after trimming (the empty
string is already falsy). -/
def strFieldBad (s : Option String) : Bool :=
  match s with
  | none => true
  | some v => (jsTrim v).length = 0

/-- validateItemFields: pure validation of a catalog-item payload,
returning the list of every violated rule. The message strings follow the
source with quote characters elided. -/
def validateItemFields (item : Option ItemInput) : List String :=
  match item with
  | none => ["Missing item payload"]
  | some it =>
    let errs : List String := []
    let errs := errs ++
      (if it.tab = none ∨ it.tab = some "" ∨ (it.tab ≠ some "raffles" ∧ it.tab ≠ some "concessions")
       then ["tab is required and must be raffles or concessions"] else [])
    let errs := errs ++ (if strFieldBad it.category then ["category is required"] else [])
    let errs := errs ++ (if strFieldBad it.name then ["name is required"] else [])
    let errs := errs ++ (if strFieldBad it.dataName then ["dataName is required"] else [])
    let errs := errs ++
      (match it.price with
       | none => ["price must be a non-negative number"]
       | some p => if p < 0 then ["price must be a non-negative number"] else [])
    errs

/-- PBKDF2 iteration count used by validateAdminPassword. -/
def PBKDF2_ITERATIONS : Nat := 100000

/-- PBKDF2 derived-key length in bytes used by validateAdminPassword. -/
def PBKDF2_KEYLEN : Nat := 64

/-- crypto timingSafeEqual on the hex decodings of two strings: it throws
when the byte lengths differ and otherwise reports byte equality in
constant time. Equal-length hex strings decode to equal-length buffers. -/
def timingSafeEqualHex (a b : String) : Except Unit Bool :=
  if a.length = b.length then .ok (a = b) else .error ()

/-- validateAdminPassword. The stored credential reads and the key
derivation are effectful collaborators, passed in as arguments:
`loadHash` and `loadSalt` give the meta_text rows (`.error` models a
thrown database error, `none` a missing row), and `pbkdf2Sync` the
derivation (`.error` models a thrown derivation error). The whole body is
wrapped in try/catch, so every thrown error yields `false`; a stored
value of null or the empty string is falsy and also yields `false`. -/
def validateAdminPassword
    (pbkdf2Sync : String → String → Nat → Nat → String → Except Unit String)
    (loadHash loadSalt : Except Unit (Option String))
    (password : String) : Bool :=
  match loadHash, loadSalt with
  | .ok (some storedHash), .ok (some storedSalt) =>
    if storedHash = "" ∨ storedSalt = "" then false
    else
      match pbkdf2Sync password storedSalt PBKDF2_ITERATIONS PBKDF2_KEYLEN "sha512" with
      | .error _ => false
      | .ok derived =>
        match timingSafeEqualHex derived storedHash with
        | .error _ => false
        | .ok b => b
  | _, _ => false

/-- TTL of admin tokens in milliseconds: 30 minutes. -/
def ADMIN_TOKEN_TTL : Nat := 1000 * 60 * 30

/-- The in-memory adminTokens Map (token to expiry instant in ms),
modelled as an association list in insertion order with unique keys. -/
def TokenStore : Type := List (String × Nat)

/-- Map.get: first binding of the key, if any. -/
def storeGet (s : TokenStore) (t : String) : Option Nat :=
  match s with
  | [] => none
  | (k, v) :: rest => if k = t then some v else storeGet rest t

/-- Map.set: overwrite the binding in place, else append. -/
def storeSet (s : TokenStore) (t : String) (v : Nat) : TokenStore :=
  match s with
  | [] => [(t, v)]
  | (k, w) :: rest => if k = t then (k, v) :: rest else (k, w) :: storeSet rest t v

/-- Map.delete: remove the binding of the key, if any. -/
def storeDelete (s : TokenStore) (t : String) : TokenStore :=
  match s with
  | [] => []
  | (k, w) :: rest => if k = t then rest else (k, w) :: storeDelete rest t

/-- createAdminToken: store a freshly generated random token (passed in as
`token`) with expiry now + TTL. Returns the token and the updated store. -/
def createAdminToken (token : String) (now : Nat) (s : TokenStore) : String × TokenStore :=
  (token, storeSet s token (now + ADMIN_TOKEN_TTL))

/-- validateAdminToken at clock instant `now`: fails on an absent binding
(an expiry of 0 is falsy and also fails), deletes the binding and fails
when `now` is strictly past the expiry, and otherwise slides the expiry
to now + TTL and succeeds. Returns the verdict and the updated store. -/
def validateAdminToken (now : Nat) (token : String) (s : TokenStore) : Bool × TokenStore :=
  match storeGet s token with
  | none => (false, s)
  | some exp =>
    if exp = 0 then (false, s)
    else if now > exp then (false, storeDelete s token)
    else (true, storeSet s token (now + ADMIN_TOKEN_TTL))

end Maria

namespace Http

/-- Maximum failed logins per client before lockout. -/
def MAX_ATTEMPTS : Nat := 5

/-- Width of the failed-attempt window in milliseconds: 10 minutes. -/
def ATTEMPT_WINDOW_MS : Nat := 1000 * 60 * 10

/-- Lockout duration in milliseconds: 15 minutes. -/
def LOCK_TIME_MS : Nat := 1000 * 60 * 15

/-- The loginAttempts record of one client:
`{ count, firstAt, lockedUntil }`; `lockedUntil = 0` (falsy) means no
lockout has been set. -/
structure AttemptRecord where
  count : Nat
  firstAt : Nat
  lockedUntil : Nat
deriving DecidableEq, Repr

/-- Outcome of one POST /api/admin/login request, by response status:
429 rate limited, 400 missing password, 401 invalid password,
200 success. -/
inductive LoginOutcome where
  | rateLimited
  | missingPassword
  | invalidPassword
  | success
deriving DecidableEq, Repr

/-- Result of one login request: the outcome, the loginAttempts entry of
the client afterwards, and whether validateAdminPassword was invoked. -/
structure LoginStepResult where
  outcome : LoginOutcome
  record : Option AttemptRecord
  guardInvoked : Bool
deriving DecidableEq, Repr

/-- One POST /api/admin/login request from a single client at clock
instant `now`. `passwordPresent` is the truthiness of the submitted
password field and `passwordOk` the verdict validateAdminPassword would
return for it; `rec?` is the loginAttempts entry of the client before the
request. A locked client is turned away before the password is ever
checked; the missing-password branch does not store the default record. -/
def loginStep (passwordOk : Bool) (now : Nat) (passwordPresent : Bool)
    (rec? : Option AttemptRecord) : LoginStepResult :=
  let record := rec?.getD ⟨0, now, 0⟩
  if record.lockedUntil ≠ 0 ∧ now < record.lockedUntil then
    ⟨.rateLimited, rec?, false⟩
  else if ¬ passwordPresent then
    ⟨.missingPassword, rec?, false⟩
  else if ¬ passwordOk then
    let record1 :=
      if now - record.firstAt > ATTEMPT_WINDOW_MS then
        { record with count := 1, firstAt := now }
      else
        { record with count := record.count + 1 }
    let record2 :=
      if record1.count ≥ MAX_ATTEMPTS then
        { record1 with lockedUntil := now + LOCK_TIME_MS }
      else record1
    ⟨.invalidPassword, some record2, true⟩
  else
    ⟨.success, none, true⟩

/-- The loginAttempts entry of a client after a sequence of failed
attempts with present passwords at the given instants. -/
def failSeq (times : List Nat) (rec? : Option AttemptRecord) : Option AttemptRecord :=
  times.foldl (fun r t => (loginStep false t true r).record) rec?

end Http

namespace Firestore

/-- An order document of the `orders` collection. -/
structure OrderDoc where
  orderId : String
  totalAmount : Int
  paymentType : String
  timestamp : String
  status : String
deriving DecidableEq, Repr

/-- A line-item document of the `transactions` collection. -/
structure TxDoc where
  orderId : String
  item : String
  quantity : Int
  total : Int
deriving DecidableEq, Repr

/-- The document store. `counterExists` records whether the `meta/counter`
document exists; its `count` field is meaningful only when it does. -/
structure Db where
  counterExists : Bool
  count : Nat
  orders : List OrderDoc
  transactions : List TxDoc
deriving DecidableEq, Repr

/-- The counter value a reader sees: `doc.exists ? doc.data().count : 0`. -/
def Db.counterValue (db : Db) : Nat :=
  if db.counterExists then db.count else 0

/-- `submitOrder` of the document backend. The counter increment runs in
its own transaction which commits before anything else; the order header
is then written on its own, and the line items via a separate batched
write. Fault injection: step 0 fails the counter transaction, step 1 the
order-header write, step 2 the line-item batch commit. Each step that has
already run stays committed when a later step throws. -/
def submitOrder (failAt : Option Nat) (timestamp : String) (orderData : OrderData) (db : Db) :
    Db × Except String (OrderData × String) :=
  if failAt = some 0 then
    (db, .error "counter transaction failed")
  else
    let counter := db.counterValue + 1
    let newOrderId := formatOrderId counter
    let db1 : Db := { db with counterExists := true, count := counter }
    if failAt = some 1 then
      (db1, .error "order document write failed")
    else
      let status := if orderData.paymentType = "Venmo" then "pending" else "paid"
      let db2 : Db := { db1 with
        orders := db1.orders ++ [⟨newOrderId, orderData.totalAmount, orderData.paymentType, timestamp, status⟩] }
      if failAt = some 2 then
        (db2, .error "line item batch commit failed")
      else
        let db3 : Db := { db2 with
          transactions := db2.transactions ++
            orderData.items.map (fun it => ⟨newOrderId, it.name, it.qty, it.price * it.qty⟩) }
        (db3, .ok (orderData, newOrderId))

/-- Sequential execution of a batch of document-backend submissions,
recording for each one the counter value it observed and the assigned
order ID, in commit order. -/
def runBatch (timestamp : String) (db : Db) (ods : List OrderData) : Db × List (Nat × String) :=
  match ods with
  | [] => (db, [])
  | od :: rest =>
    match submitOrder none timestamp od db with
    | (db1, .ok (_, oid)) =>
      let r := runBatch timestamp db1 rest
      (r.1, (db.counterValue, oid) :: r.2)
    | (db1, .error _) =>
      let r := runBatch timestamp db1 rest
      (r.1, r.2)

/-- getOrders of the document backend: read the orders collection and
return each document's raw data. No join with the transactions
collection is performed — the returned documents carry no line items at
all — and no ordering is applied, so documents come back in the stored
collection order. -/
def getOrders (db : Db) : List OrderDoc :=
  db.orders.map (fun doc => doc)

end Firestore

/-- The relational store produced by a committed submission: counter
advanced by one, the order header appended, one transactions row per line
item with the computed line total, all keyed by the new order ID. -/
def Maria.commitSubmit (now : Nat) (orderData : OrderData) (db : Maria.Db) : Maria.Db :=
  { counter := db.counter + 1,
    orders := db.orders ++
      [⟨formatOrderId (db.counter + 1), orderData.totalAmount, orderData.paymentType,
        (if orderData.paymentType = "Venmo" then "pending" else "paid"), now⟩],
    transactions := db.transactions ++
      orderData.items.map (fun it =>
        ⟨formatOrderId (db.counter + 1), it.name, it.qty, it.price * it.qty⟩) }

/-! Formatting-layer lemmas: the decimal digit list, its value, and the
padded order identifier. -/

theorem decDigits_of_lt (n : Nat) (h : n < 10) : decDigits n = [Nat.digitChar n] := by
  rw [decDigits, dif_pos h]

theorem decDigits_of_ge (n : Nat) (h : 10 ≤ n) :
    decDigits n = decDigits (n / 10) ++ [Nat.digitChar (n % 10)] := by
  rw [decDigits, dif_neg (by omega)]

theorem toDigitsCore_append (fuel : Nat) :
    ∀ (n : Nat) (ds : List Char),
      Nat.toDigitsCore 10 fuel n ds = Nat.toDigitsCore 10 fuel n [] ++ ds := by
  induction fuel with
  | zero => intro n ds; rfl
  | succ f ih =>
    intro n ds
    simp only [Nat.toDigitsCore]
    by_cases h : n / 10 = 0
    · simp [h]
    · simp only [h, if_false]
      rw [ih (n / 10) (Nat.digitChar (n % 10) :: ds), ih (n / 10) [Nat.digitChar (n % 10)]]
      simp

theorem toDigitsCore_eq_decDigits (fuel : Nat) :
    ∀ n : Nat, n < fuel → Nat.toDigitsCore 10 fuel n [] = decDigits n := by
  induction fuel with
  | zero => intro n h; omega
  | succ f ih =>
    intro n h
    simp only [Nat.toDigitsCore]
    by_cases h10 : n < 10
    · have hz : n / 10 = 0 := Nat.div_eq_of_lt h10
      rw [decDigits_of_lt n h10]
      simp [hz, Nat.mod_eq_of_lt h10]
    · have hge : 10 ≤ n := by omega
      have hz : ¬ n / 10 = 0 := by
        intro h0
        have := (Nat.div_eq_zero_iff (by omega : 0 < 10)).mp h0
        omega
      simp only [hz, if_false]
      have hlt : n / 10 < f := by
        have h1 : n / 10 < n := Nat.div_lt_self (by omega) (by omega)
        omega
      rw [toDigitsCore_append, ih (n / 10) hlt, decDigits_of_ge n hge]

theorem repr_eq_decDigits (n : Nat) : Nat.repr n = ⟨decDigits n⟩ := by
  show (Nat.toDigits 10 n).asString = _
  rw [Nat.toDigits, toDigitsCore_eq_decDigits (n + 1) n (by omega)]
  rfl

theorem digitVal_digitChar : ∀ r : Nat, r < 10 → digitVal (Nat.digitChar r) = r := by decide

theorem foldl_strVal (l : List Char) :
    ∀ a : Nat, l.foldl (fun a c => a * 10 + digitVal c) a = a * 10 ^ l.length + strVal l := by
  induction l with
  | nil => intro a; simp [strVal]
  | cons c l ih =>
    intro a
    have hcons : strVal (c :: l) = digitVal c * 10 ^ l.length + strVal l := by
      show l.foldl (fun a c => a * 10 + digitVal c) (0 * 10 + digitVal c) = _
      rw [ih]
      ring_nf
    simp only [List.foldl_cons, List.length_cons]
    rw [ih, hcons, pow_succ]
    ring

theorem strVal_append (xs ys : List Char) :
    strVal (xs ++ ys) = strVal xs * 10 ^ ys.length + strVal ys := by
  show (xs ++ ys).foldl (fun a c => a * 10 + digitVal c) 0 = _
  rw [List.foldl_append, foldl_strVal]
  rfl

theorem strVal_decDigits_aux (fuel : Nat) :
    ∀ n : Nat, n < fuel → strVal (decDigits n) = n := by
  induction fuel with
  | zero => intro n h; omega
  | succ f ih =>
    intro n h
    by_cases h10 : n < 10
    · rw [decDigits_of_lt n h10]
      show 0 * 10 + digitVal (Nat.digitChar n) = n
      rw [digitVal_digitChar n h10]
      omega
    · have hge : 10 ≤ n := by omega
      have hlt : n / 10 < f := by
        have h1 : n / 10 < n := Nat.div_lt_self (by omega) (by omega)
        omega
      rw [decDigits_of_ge n hge, strVal_append, ih (n / 10) hlt]
      have hm : n % 10 < 10 := Nat.mod_lt n (by omega)
      have hsingle : strVal [Nat.digitChar (n % 10)] = n % 10 := by
        show 0 * 10 + digitVal (Nat.digitChar (n % 10)) = n % 10
        rw [digitVal_digitChar (n % 10) hm]
        omega
      rw [hsingle]
      simp only [List.length_singleton, pow_one]
      omega

theorem strVal_decDigits (n : Nat) : strVal (decDigits n) = n :=
  strVal_decDigits_aux (n + 1) n (by omega)

theorem strVal_replicate_zero (k : Nat) :
    ∀ l : List Char, strVal (List.replicate k '0' ++ l) = strVal l := by
  induction k with
  | zero => intro l; simp
  | succ k ih =>
    intro l
    show strVal ('0' :: (List.replicate k '0' ++ l)) = strVal l
    show (List.replicate k '0' ++ l).foldl (fun a c => a * 10 + digitVal c) (0 * 10 + digitVal '0') = _
    have : (0 * 10 + digitVal '0') = 0 := by decide
    rw [this]
    exact ih l

theorem strVal_formatOrderId (n : Nat) : strVal (formatOrderId n).data = n := by
  show strVal (List.replicate (4 - (Nat.repr n).length) '0' ++ (Nat.repr n).data) = n
  rw [strVal_replicate_zero, repr_eq_decDigits]
  exact strVal_decDigits n

theorem formatOrderId_injective (a b : Nat) (h : formatOrderId a = formatOrderId b) : a = b := by
  have := congrArg (fun s => strVal s.data) h
  simpa [strVal_formatOrderId] using this

theorem decDigits_length_pos (n : Nat) : 0 < (decDigits n).length := by
  by_cases h : n < 10
  · rw [decDigits_of_lt n h]; simp
  · rw [decDigits_of_ge n (by omega)]; simp

theorem lt_pow_decDigits_length_aux (fuel : Nat) :
    ∀ n : Nat, n < fuel → n < 10 ^ (decDigits n).length := by
  induction fuel with
  | zero => intro n h; omega
  | succ f ih =>
    intro n h
    by_cases h10 : n < 10
    · rw [decDigits_of_lt n h10]
      simpa using h10
    · have hge : 10 ≤ n := by omega
      have hlt : n / 10 < f := by
        have h1 : n / 10 < n := Nat.div_lt_self (by omega) (by omega)
        omega
      have hd := ih (n / 10) hlt
      rw [decDigits_of_ge n hge]
      simp only [List.length_append, List.length_singleton]
      rw [pow_succ]
      have hmod : 10 * (n / 10) + n % 10 = n := Nat.div_add_mod n 10
      omega

theorem lt_pow_decDigits_length (n : Nat) : n < 10 ^ (decDigits n).length :=
  lt_pow_decDigits_length_aux (n + 1) n (by omega)

theorem decDigits_length_le (k : Nat) :
    ∀ n : Nat, n < 10 ^ k → 0 < k → (decDigits n).length ≤ k := by
  induction k with
  | zero => intro n _ h; omega
  | succ k ih =>
    intro n hn _
    by_cases h10 : n < 10
    · rw [decDigits_of_lt n h10]; simp
    · have hge : 10 ≤ n := by omega
      have hk : 0 < k := by
        by_contra h0
        have : k = 0 := by omega
        subst this
        simp at hn
        omega
      have hdiv : n / 10 < 10 ^ k := by
        rw [Nat.div_lt_iff_lt_mul (by omega : 0 < 10)]
        calc n < 10 ^ (k + 1) := hn
        _ = 10 ^ k * 10 := by rw [pow_succ]
      have := ih (n / 10) hdiv hk
      rw [decDigits_of_ge n hge]
      simp only [List.length_append, List.length_singleton]
      omega

theorem repr_length_eq (n : Nat) : (Nat.repr n).length = (decDigits n).length := by
  rw [repr_eq_decDigits]
  rfl

theorem formatOrderId_length_of_lt (n : Nat) (h : n < 10000) :
    (formatOrderId n).length = 4 := by
  have hle : (decDigits n).length ≤ 4 := decDigits_length_le 4 n (by omega) (by omega)
  show (List.replicate (4 - (Nat.repr n).length) '0' ++ (Nat.repr n).data).length = 4
  simp only [List.length_append, List.length_replicate]
  have : (Nat.repr n).data.length = (Nat.repr n).length := rfl
  rw [this, repr_length_eq]
  omega

theorem formatOrderId_eq_repr_of_ge (n : Nat) (h : 10000 ≤ n) :
    formatOrderId n = Nat.repr n := by
  have hlen : 4 < (decDigits n).length := by
    by_contra hc
    have hle : (decDigits n).length ≤ 4 := by omega
    have := lt_pow_decDigits_length n
    have : n < 10 ^ 4 := lt_of_lt_of_le this (Nat.pow_le_pow_right (by omega) hle)
    omega
  show padStart (Nat.repr n) 4 '0' = Nat.repr n
  have hz : 4 - (Nat.repr n).length = 0 := by rw [repr_length_eq]; omega
  show (⟨List.replicate (4 - (Nat.repr n).length) '0' ++ (Nat.repr n).data⟩ : String) = Nat.repr n
  rw [hz]
  rfl

theorem formatOrderId_length_gt_of_ge (n : Nat) (h : 10000 ≤ n) :
    4 < (formatOrderId n).length := by
  rw [formatOrderId_eq_repr_of_ge n h, repr_length_eq]
  by_contra hc
  have hle : (decDigits n).length ≤ 4 := by omega
  have hlt := lt_pow_decDigits_length n
  have hn4 : n < 10 ^ 4 := lt_of_lt_of_le hlt (Nat.pow_le_pow_right (by omega) hle)
  omega

/-! Transaction-layer lemmas for the relational submitOrder. -/

namespace Maria

theorem runTxnOps_none (ops : List TxnOp) :
    ∀ (pending : Maria.Db) (step : Nat),
      runTxnOps pending ops step none = some (ops.foldl applyOp pending) := by
  induction ops with
  | nil => intro pending step; rfl
  | cons op rest ih =>
    intro pending step
    simp only [runTxnOps, List.foldl_cons]
    rw [if_neg (by simp), ih]

theorem runTxnOps_fail_in (ops : List TxnOp) :
    ∀ (pending : Maria.Db) (step k : Nat), step ≤ k → k < step + ops.length →
      runTxnOps pending ops step (some k) = none := by
  induction ops with
  | nil => intro pending step k h1 h2; simp at h2; omega
  | cons op rest ih =>
    intro pending step k h1 h2
    simp only [runTxnOps]
    by_cases hk : k = step
    · rw [if_pos (by simp [hk])]
    · rw [if_neg (by simp; omega)]
      exact ih (applyOp pending op) (step + 1) k (by omega) (by simp at h2; omega)

theorem runTxnOps_fail_out (ops : List TxnOp) :
    ∀ (pending : Maria.Db) (step k : Nat), step + ops.length ≤ k →
      runTxnOps pending ops step (some k) = some (ops.foldl applyOp pending) := by
  induction ops with
  | nil => intro pending step k _; rfl
  | cons op rest ih =>
    intro pending step k h
    simp only [runTxnOps, List.foldl_cons]
    simp only [List.length_cons] at h
    rw [if_neg (by simp; omega)]
    exact ih (applyOp pending op) (step + 1) k (by omega)

theorem foldl_insertTx (f : OrderItem → TxRow) (its : List OrderItem) :
    ∀ db : Maria.Db,
      (its.map (fun it => TxnOp.insertTx (f it))).foldl applyOp db
        = { db with transactions := db.transactions ++ its.map f } := by
  induction its with
  | nil => intro db; simp
  | cons it rest ih =>
    intro db
    simp only [List.map_cons, List.foldl_cons]
    rw [ih]
    simp [applyOp, List.append_assoc]

theorem submitOps_foldl (orderData : OrderData) (now : Nat) (db : Maria.Db) :
    (submitOps orderData db.counter now).foldl applyOp db = commitSubmit now orderData db := by
  simp only [submitOps, List.foldl_append, List.foldl_cons, List.foldl_nil]
  rw [foldl_insertTx]
  simp [applyOp, commitSubmit]

/-- A fault-free submission commits `commitSubmit` and returns the payload
together with the new order ID. -/
theorem submitOrder_none_eq (now : Nat) (orderData : OrderData) (db : Maria.Db) :
    submitOrder none now orderData db =
      (commitSubmit now orderData db, .ok (orderData, formatOrderId (db.counter + 1))) := by
  simp only [submitOrder]
  rw [if_neg (by simp), runTxnOps_none, submitOps_foldl]
  simp only []
  rw [if_neg (by simp)]

/-- A submission whose step `k` throws (any step up to and including the
COMMIT) leaves the committed store unchanged and surfaces an error. -/
theorem submitOrder_fail_eq (k now : Nat) (orderData : OrderData) (db : Maria.Db)
    (h : k ≤ 3 + orderData.items.length) :
    (submitOrder (some k) now orderData db).1 = db ∧
    ∃ e, (submitOrder (some k) now orderData db).2 = Except.error e := by
  have hlen : (submitOps orderData db.counter now).length = 2 + orderData.items.length := by
    simp [submitOps]
    omega
  by_cases h0 : k = 0
  · subst h0
    exact ⟨rfl, _, rfl⟩
  · simp only [submitOrder]
    rw [if_neg (by simp [h0])]
    by_cases hin : k < 1 + (submitOps orderData db.counter now).length
    · rw [runTxnOps_fail_in _ db 1 k (by omega) (by omega)]
      exact ⟨rfl, _, rfl⟩
    · rw [runTxnOps_fail_out _ db 1 k (by omega)]
      have hk : k = 1 + (submitOps orderData db.counter now).length := by omega
      subst hk
      simp only []
      simp only [if_true]
      exact ⟨trivial, _, rfl⟩

theorem any_orderId_false (acc : List OrderOut) (oid : String)
    (h : ∀ e ∈ acc, ¬ e.orderId = oid) :
    acc.any (fun o => o.orderId = oid) = false := by
  rw [List.any_eq_false]
  intro e he
  simpa using h e he

theorem map_push_append (acc : List OrderOut) (entry : OrderOut) (oid : String)
    (f : OrderOut → OrderOut) (hacc : ∀ e ∈ acc, ¬ e.orderId = oid) (he : entry.orderId = oid) :
    (acc ++ [entry]).map (fun o => if o.orderId = oid then f o else o) = acc ++ [f entry] := by
  rw [List.map_append]
  congr 1
  · calc acc.map (fun o => if o.orderId = oid then f o else o)
        = acc.map id := by
          apply List.map_congr_left
          intro e he'
          simp [hacc e he']
      _ = acc := List.map_id acc
  · simp [he]

theorem groupStep_existing_none (acc : List OrderOut) (row : JoinRow)
    (hany : acc.any (fun o => o.orderId = row.orderId) = true) (hnone : row.item = none) :
    groupStep acc row = acc := by
  simp [groupStep, hany, hnone]

theorem groupStep_existing_empty (acc : List OrderOut) (row : JoinRow)
    (hany : acc.any (fun o => o.orderId = row.orderId) = true) (hit : row.item = some "") :
    groupStep acc row = acc := by
  simp [groupStep, hany, hit]

theorem groupStep_existing_some (acc : List OrderOut) (row : JoinRow) (it : String)
    (hany : acc.any (fun o => o.orderId = row.orderId) = true) (hit : row.item = some it)
    (hne : ¬ it = "") :
    groupStep acc row = acc.map (fun o =>
      if o.orderId = row.orderId then
        { o with items := o.items ++ [⟨it, row.quantity.getD 0, row.itemTotal.getD 0⟩] }
      else o) := by
  simp [groupStep, hany, hit, hne]

theorem groupStep_new_none (acc : List OrderOut) (row : JoinRow)
    (hany : acc.any (fun o => o.orderId = row.orderId) = false) (hnone : row.item = none) :
    groupStep acc row = acc ++ [freshOf row] := by
  simp [groupStep, hany, hnone, freshOf]

theorem groupStep_new_empty (acc : List OrderOut) (row : JoinRow)
    (hany : acc.any (fun o => o.orderId = row.orderId) = false) (hit : row.item = some "") :
    groupStep acc row = acc ++ [freshOf row] := by
  simp [groupStep, hany, hit, freshOf]

theorem groupStep_new_some (acc : List OrderOut) (row : JoinRow) (it : String)
    (hany : acc.any (fun o => o.orderId = row.orderId) = false) (hit : row.item = some it)
    (hne : ¬ it = "") :
    groupStep acc row = (acc ++ [freshOf row]).map (fun o =>
      if o.orderId = row.orderId then
        { o with items := o.items ++ [⟨it, row.quantity.getD 0, row.itemTotal.getD 0⟩] }
      else o) := by
  simp [groupStep, hany, hit, hne, freshOf]

/-- Folding the join rows of the matching transactions of one order over
an accumulator that ends with that order and has no earlier entry for it
appends, in stored order, the line items whose name is non-empty. -/
theorem foldl_rows_append (o : OrderRow) (ts : List TxRow) :
    ∀ (acc : List OrderOut) (entry : OrderOut),
      (∀ e ∈ acc, ¬ e.orderId = o.orderId) → entry.orderId = o.orderId →
      (ts.map (rowOf o)).foldl groupStep (acc ++ [entry]) =
        acc ++ [{ entry with
          items := entry.items ++ (ts.filter (fun t => ¬ t.item = "")).map itemOutOf }] := by
  induction ts with
  | nil => intro acc entry _ _; simp
  | cons t ts ih =>
    intro acc entry hacc he
    simp only [List.map_cons, List.foldl_cons]
    have hany : (acc ++ [entry]).any (fun e => e.orderId = (rowOf o t).orderId) = true := by
      rw [List.any_eq_true]
      refine ⟨entry, by simp, ?_⟩
      simp [rowOf, he]
    have hrowit : (rowOf o t).item = some t.item := rfl
    by_cases hit : t.item = ""
    · rw [groupStep_existing_empty _ _ hany (by rw [hrowit, hit])]
      rw [ih acc entry hacc he]
      simp [List.filter_cons, hit]
    · rw [groupStep_existing_some _ _ t.item hany hrowit hit]
      have hpush : ((acc ++ [entry]).map (fun e =>
          if e.orderId = (rowOf o t).orderId then
            { e with items := e.items ++
                [⟨t.item, (rowOf o t).quantity.getD 0, (rowOf o t).itemTotal.getD 0⟩] }
          else e)) = acc ++ [{ entry with items := entry.items ++ [itemOutOf t] }] := by
        rw [List.map_append]
        congr 1
        · calc acc.map _ = acc.map id := by
                apply List.map_congr_left
                intro e he2
                have : ¬ e.orderId = (rowOf o t).orderId := by
                  show ¬ e.orderId = o.orderId
                  exact hacc e he2
                simp [this]
            _ = acc := List.map_id acc
        · have : entry.orderId = (rowOf o t).orderId := by
            show entry.orderId = o.orderId
            exact he
          simp [this, itemOutOf, rowOf]
      rw [hpush]
      rw [ih acc { entry with items := entry.items ++ [itemOutOf t] } hacc (by simp [he])]
      simp [List.filter_cons, hit, List.append_assoc]

/-- Folding the join block of one order over an accumulator with no entry
for it appends exactly the regrouped order. -/
theorem foldl_block (db : Maria.Db) (o : OrderRow) (acc : List OrderOut)
    (hacc : ∀ e ∈ acc, ¬ e.orderId = o.orderId) :
    (blockOf db o).foldl groupStep acc = acc ++ [outOf db o] := by
  rw [blockOf]
  cases hts : db.transactions.filter (fun t => t.orderId = o.orderId) with
  | nil =>
    simp only [List.foldl_cons, List.foldl_nil]
    have hany : acc.any (fun e => e.orderId = (nullRowOf o).orderId) = false := by
      apply any_orderId_false
      intro e he
      show ¬ e.orderId = o.orderId
      exact hacc e he
    rw [groupStep_new_none acc _ hany rfl]
    simp [outOf, hts, freshOf, nullRowOf]
  | cons t ts =>
    simp only [List.map_cons, List.foldl_cons]
    have hany : acc.any (fun e => e.orderId = (rowOf o t).orderId) = false := by
      apply any_orderId_false
      intro e he
      show ¬ e.orderId = o.orderId
      exact hacc e he
    have hrowit : (rowOf o t).item = some t.item := rfl
    have hfresh : freshOf (rowOf o t) =
        ⟨o.orderId, o.totalAmount, o.paymentType, o.status, o.timestamp, []⟩ := rfl
    have hstep : groupStep acc (rowOf o t) =
        acc ++ [⟨o.orderId, o.totalAmount, o.paymentType, o.status, o.timestamp,
                ([t].filter (fun t => ¬ t.item = "")).map itemOutOf⟩] := by
      by_cases hit : t.item = ""
      · rw [groupStep_new_empty acc _ hany (by rw [hrowit, hit]), hfresh]
        simp [List.filter_cons, hit]
      · rw [groupStep_new_some acc _ t.item hany hrowit hit]
        rw [List.map_append]
        have hmap : acc.map (fun e =>
            if e.orderId = (rowOf o t).orderId then
              { e with items := e.items ++
                  [⟨t.item, (rowOf o t).quantity.getD 0, (rowOf o t).itemTotal.getD 0⟩] }
            else e) = acc := by
          calc acc.map _ = acc.map id := by
                apply List.map_congr_left
                intro e he2
                have : ¬ e.orderId = (rowOf o t).orderId := by
                  show ¬ e.orderId = o.orderId
                  exact hacc e he2
                simp [this]
            _ = acc := List.map_id acc
        rw [hmap, hfresh]
        simp [List.filter_cons, hit, itemOutOf, rowOf]
    rw [hstep, foldl_rows_append o ts acc _ hacc rfl]
    have hitems : ([t].filter (fun t => ¬ t.item = "")).map itemOutOf ++
        (ts.filter (fun t => ¬ t.item = "")).map itemOutOf =
        ((t :: ts).filter (fun t => ¬ t.item = "")).map itemOutOf := by
      rw [← List.map_append, ← List.filter_append]
      rfl
    simp only []
    rw [hitems]
    simp [outOf, hts]

/-- Folding the blocks of a list of orders with pairwise distinct order
IDs, none of which occurs in the accumulator, appends their regrouped
orders in sequence. -/
theorem foldl_flatMap_blocks (db : Maria.Db) :
    ∀ (os : List OrderRow) (acc : List OrderOut),
      (∀ o ∈ os, ∀ e ∈ acc, ¬ e.orderId = o.orderId) →
      (os.map (fun o => o.orderId)).Nodup →
      (os.flatMap (blockOf db)).foldl groupStep acc = acc ++ os.map (outOf db) := by
  intro os
  induction os with
  | nil => intro acc _ _; simp
  | cons o os ih =>
    intro acc hacc hnd
    rw [List.flatMap_cons, List.foldl_append]
    rw [foldl_block db o acc (hacc o (by simp))]
    rw [ih (acc ++ [outOf db o]) ?_ ?_]
    · simp
    · intro o2 ho2 e he
      rcases List.mem_append.mp he with h | h
      · exact hacc o2 (by simp [ho2]) e h
      · have : e = outOf db o := by simpa using h
        subst this
        show ¬ o.orderId = o2.orderId
        simp only [List.map_cons, List.nodup_cons] at hnd
        intro heq
        exact hnd.1 (by rw [heq]; exact List.mem_map_of_mem _ ho2)
    · simp only [List.map_cons, List.nodup_cons] at hnd
      exact hnd.2

theorem runBatch_spec (now : Nat) :
    ∀ (ods : List OrderData) (db : Maria.Db),
      (runBatch now db ods).2 =
        (List.range ods.length).map
          (fun i => (db.counter + i, formatOrderId (db.counter + i + 1))) ∧
      (runBatch now db ods).1.counter = db.counter + ods.length := by
  intro ods
  induction ods with
  | nil => intro db; simp [runBatch]
  | cons od rest ih =>
    intro db
    have hsub := submitOrder_none_eq now od db
    have hc : (commitSubmit now od db).counter = db.counter + 1 := rfl
    constructor
    · show (runBatch now db (od :: rest)).2 = _
      rw [runBatch, hsub]
      simp only []
      rw [(ih (commitSubmit now od db)).1, hc]
      simp only [List.length_cons]
      have htail : (List.range rest.length).map
            (fun i => (db.counter + 1 + i, formatOrderId (db.counter + 1 + i + 1)))
          = (List.range rest.length).map
            ((fun i => (db.counter + i, formatOrderId (db.counter + i + 1))) ∘ (· + 1)) := by
        apply List.map_congr_left
        intro i _
        simp only [Function.comp_apply]
        have h1 : db.counter + 1 + i = db.counter + (i + 1) := by omega
        rw [h1]
      rw [List.range_succ_eq_map, List.map_cons, List.map_map, htail]
      simp
    · show (runBatch now db (od :: rest)).1.counter = _
      rw [runBatch, hsub]
      simp only []
      rw [(ih (commitSubmit now od db)).2, hc]
      simp only [List.length_cons]
      omega

theorem storeGet_storeSet_self (tok : String) (v : Nat) :
    ∀ s : TokenStore, storeGet (storeSet s tok v) tok = some v := by
  intro s
  induction s with
  | nil => simp [storeSet, storeGet]
  | cons kv rest ih =>
    obtain ⟨k, w⟩ := kv
    by_cases hk : k = tok
    · simp [storeSet, storeGet, hk]
    · simp only [storeSet, hk, if_false, storeGet]
      exact ih

end Maria

namespace Firestore

/-- A fault-free document-backend submission: the counter document now
exists with the incremented value, the header and the computed line items
are appended, and the payload is echoed with the new order ID. -/
theorem fs_submitOrder_none_eq (timestamp : String) (orderData : OrderData) (db : Firestore.Db) :
    submitOrder none timestamp orderData db =
      ({ counterExists := true, count := db.counterValue + 1,
         orders := db.orders ++
           [⟨formatOrderId (db.counterValue + 1), orderData.totalAmount, orderData.paymentType,
             timestamp, (if orderData.paymentType = "Venmo" then "pending" else "paid")⟩],
         transactions := db.transactions ++
           orderData.items.map (fun it =>
             ⟨formatOrderId (db.counterValue + 1), it.name, it.qty, it.price * it.qty⟩) },
       .ok (orderData, formatOrderId (db.counterValue + 1))) := by
  simp only [submitOrder]
  rw [if_neg (by simp), if_neg (by simp), if_neg (by simp)]

theorem fs_runBatch_spec (timestamp : String) :
    ∀ (ods : List OrderData) (db : Firestore.Db),
      (runBatch timestamp db ods).2 =
        (List.range ods.length).map
          (fun i => (db.counterValue + i, formatOrderId (db.counterValue + i + 1))) ∧
      (runBatch timestamp db ods).1.counterValue = db.counterValue + ods.length := by
  intro ods
  induction ods with
  | nil => intro db; simp [runBatch]
  | cons od rest ih =>
    intro db
    have hsub := fs_submitOrder_none_eq timestamp od db
    constructor
    · show (runBatch timestamp db (od :: rest)).2 = _
      rw [runBatch, hsub]
      simp only []
      rw [(ih _).1]
      have hc : Firestore.Db.counterValue
          { counterExists := true, count := db.counterValue + 1,
            orders := db.orders ++
              [⟨formatOrderId (db.counterValue + 1), od.totalAmount, od.paymentType,
                timestamp, (if od.paymentType = "Venmo" then "pending" else "paid")⟩],
            transactions := db.transactions ++
              od.items.map (fun it =>
                ⟨formatOrderId (db.counterValue + 1), it.name, it.qty, it.price * it.qty⟩) }
          = db.counterValue + 1 := rfl
      rw [hc]
      simp only [List.length_cons]
      have htail : (List.range rest.length).map
            (fun i => (db.counterValue + 1 + i, formatOrderId (db.counterValue + 1 + i + 1)))
          = (List.range rest.length).map
            ((fun i => (db.counterValue + i, formatOrderId (db.counterValue + i + 1))) ∘ (· + 1)) := by
        apply List.map_congr_left
        intro i _
        simp only [Function.comp_apply]
        have h1 : db.counterValue + 1 + i = db.counterValue + (i + 1) := by omega
        rw [h1]
      rw [List.range_succ_eq_map, List.map_cons, List.map_map, htail]
      simp
    · show (runBatch timestamp db (od :: rest)).1.counterValue = _
      rw [runBatch, hsub]
      simp only []
      rw [(ih _).2]
      show db.counterValue + 1 + rest.length = _
      simp only [List.length_cons]
      omega

end Firestore

/-! Claim theorems. -/

/-- C3. validateAdminPassword returns true exactly when the stored hash
and salt rows load successfully and are present and non-empty, and the
submitted password re-derives the stored hash under the stored salt via
PBKDF2 with 100000 iterations and a 64-byte key; a missing credential,
a thrown load or derivation error, or a comparison mismatch (including a
length mismatch, which makes timingSafeEqual throw into the same catch)
all yield false rather than an escaping exception. -/
theorem validateAdminPassword_iff
    (pb : String → String → Nat → Nat → String → Except Unit String)
    (lh ls : Except Unit (Option String)) (pw : String) :
    Maria.validateAdminPassword pb lh ls pw = true ↔
      ∃ h s, lh = .ok (some h) ∧ ls = .ok (some s) ∧ ¬ h = "" ∧ ¬ s = "" ∧
        pb pw s Maria.PBKDF2_ITERATIONS Maria.PBKDF2_KEYLEN "sha512" = .ok h := by
  cases lh with
  | error u => simp [Maria.validateAdminPassword]
  | ok ho =>
    cases ls with
    | error u => simp [Maria.validateAdminPassword]
    | ok so =>
      cases ho with
      | none => simp [Maria.validateAdminPassword]
      | some h0 =>
        cases so with
        | none => simp [Maria.validateAdminPassword]
        | some s0 =>
          simp only [Maria.validateAdminPassword, Except.ok.injEq, Option.some.injEq]
          by_cases hz : h0 = "" ∨ s0 = ""
          · rw [if_pos hz]
            constructor
            · intro hfalse; exact absurd hfalse (by simp)
            · rintro ⟨h, s, rfl, rfl, hne1, hne2, _⟩
              rcases hz with hz | hz
              · exact absurd hz hne1
              · exact absurd hz hne2
          · rw [if_neg hz]
            push_neg at hz
            cases hpb : pb pw s0 Maria.PBKDF2_ITERATIONS Maria.PBKDF2_KEYLEN "sha512" with
            | error u =>
              simp only [Bool.false_eq_true, false_iff]
              rintro ⟨h, s, rfl, rfl, _, _, hok⟩
              rw [hpb] at hok
              exact absurd hok (by simp)
            | ok d =>
              simp only [Maria.timingSafeEqualHex]
              by_cases hlen : d.length = h0.length
              · rw [if_pos hlen]
                simp only [decide_eq_true_eq]
                constructor
                · intro hd
                  exact ⟨h0, s0, rfl, rfl, hz.1, hz.2, by rw [hpb, hd]⟩
                · rintro ⟨h, s, heq1, heq2, _, _, hok⟩
                  cases heq1; cases heq2
                  rw [hpb] at hok
                  exact (Except.ok.injEq _ _ ▸ hok : d = h0)
              · rw [if_neg hlen]
                simp only [Bool.false_eq_true, false_iff]
                rintro ⟨h, s, heq1, heq2, _, _, hok⟩
                cases heq1; cases heq2
                rw [hpb] at hok
                have : d = h0 := by simpa using hok
                exact hlen (by rw [this])

/-- C5. Admin session tokens slide: validating an absent token fails and
leaves the store unchanged; validating a token whose expiry has passed
fails and purges the entry; validating a live token succeeds and resets
its expiry to now + TTL, after which it stays valid exactly up to that
new expiry and is rejected and purged past it; createAdminToken stores
expiry now + TTL. -/
theorem admin_token_sliding_expiry (s : Maria.TokenStore) (tok : String) (now exp : Nat) :
    (Maria.storeGet s tok = none → Maria.validateAdminToken now tok s = (false, s)) ∧
    (Maria.storeGet s tok = some exp → ¬ exp = 0 → exp < now →
      Maria.validateAdminToken now tok s = (false, Maria.storeDelete s tok)) ∧
    (Maria.storeGet s tok = some exp → ¬ exp = 0 → now ≤ exp →
      Maria.validateAdminToken now tok s =
        (true, Maria.storeSet s tok (now + Maria.ADMIN_TOKEN_TTL))) ∧
    (Maria.storeGet s tok = some exp → ¬ exp = 0 → now ≤ exp →
      ∀ t2 : Nat,
        (t2 ≤ now + Maria.ADMIN_TOKEN_TTL →
          (Maria.validateAdminToken t2 tok (Maria.validateAdminToken now tok s).2).1 = true) ∧
        (now + Maria.ADMIN_TOKEN_TTL < t2 →
          Maria.validateAdminToken t2 tok (Maria.validateAdminToken now tok s).2 =
            (false,
             Maria.storeDelete (Maria.validateAdminToken now tok s).2 tok))) ∧
    Maria.createAdminToken tok now s = (tok, Maria.storeSet s tok (now + Maria.ADMIN_TOKEN_TTL)) := by
  have httl : Maria.ADMIN_TOKEN_TTL = 1800000 := rfl
  refine ⟨?_, ?_, ?_, ?_, rfl⟩
  · intro hget
    simp [Maria.validateAdminToken, hget]
  · intro hget hz hlt
    simp [Maria.validateAdminToken, hget, hz, hlt]
  · intro hget hz hle
    have hnotgt : ¬ now > exp := by omega
    simp [Maria.validateAdminToken, hget, hz, hnotgt]
  · intro hget hz hle t2
    have hnotgt : ¬ now > exp := by omega
    have hval : Maria.validateAdminToken now tok s =
        (true, Maria.storeSet s tok (now + Maria.ADMIN_TOKEN_TTL)) := by
      simp [Maria.validateAdminToken, hget, hz, hnotgt]
    have hget2 : Maria.storeGet (Maria.storeSet s tok (now + Maria.ADMIN_TOKEN_TTL)) tok
        = some (now + Maria.ADMIN_TOKEN_TTL) := Maria.storeGet_storeSet_self tok _ s
    have hz2 : ¬ now + Maria.ADMIN_TOKEN_TTL = 0 := by omega
    constructor
    · intro hle2
      have hnotgt2 : ¬ t2 > now + Maria.ADMIN_TOKEN_TTL := by omega
      rw [hval]
      simp [Maria.validateAdminToken, hget2, hz2, hnotgt2]
    · intro hgt2
      rw [hval]
      simp [Maria.validateAdminToken, hget2, hz2, hgt2]

/-- C5 witness: a token stored with expiry 2000 and validated at time
1000, 1800, and past the slid window. -/
theorem admin_token_sliding_expiry_witness :
    (Maria.storeGet [("tk", 2000)] "tk" = some 2000 ∧ ¬ (2000 : Nat) = 0 ∧ (1000 : Nat) ≤ 2000 ∧
      (1000 + Maria.ADMIN_TOKEN_TTL : Nat) ≤ 1000 + Maria.ADMIN_TOKEN_TTL ∧
      (1000 + Maria.ADMIN_TOKEN_TTL : Nat) < 1000 + Maria.ADMIN_TOKEN_TTL + 1) ∧
    Maria.validateAdminToken 1000 "tk" [("tk", 2000)] =
      (true, Maria.storeSet [("tk", 2000)] "tk" (1000 + Maria.ADMIN_TOKEN_TTL)) ∧
    (Maria.validateAdminToken (1000 + Maria.ADMIN_TOKEN_TTL) "tk"
        (Maria.validateAdminToken 1000 "tk" [("tk", 2000)]).2).1 = true ∧
    Maria.validateAdminToken (1000 + Maria.ADMIN_TOKEN_TTL + 1) "tk"
        (Maria.validateAdminToken 1000 "tk" [("tk", 2000)]).2 =
      (false,
       Maria.storeDelete (Maria.validateAdminToken 1000 "tk" [("tk", 2000)]).2 "tk") :=
  ⟨⟨by decide, by decide, by decide, le_refl _, by omega⟩,
   (admin_token_sliding_expiry [("tk", 2000)] "tk" 1000 2000).2.2.1 (by decide) (by decide)
     (by decide),
   ((admin_token_sliding_expiry [("tk", 2000)] "tk" 1000 2000).2.2.2.1 (by decide) (by decide)
     (by decide) (1000 + Maria.ADMIN_TOKEN_TTL)).1 (le_refl _),
   ((admin_token_sliding_expiry [("tk", 2000)] "tk" 1000 2000).2.2.2.1 (by decide) (by decide)
     (by decide) (1000 + Maria.ADMIN_TOKEN_TTL + 1)).2 (by omega)⟩

/-- C4. The login throttle: a client whose lockout is active is turned
away with the rate-limit outcome, its record untouched, without the
credential guard ever being invoked; a successful login in a non-locked
state deletes the record entirely; five consecutive failed attempts
inside one attempt window lock the client until the instant of the fifth
failure plus LOCK_TIME_MS, while four such failures leave it unlocked;
and every request while that lockout is active is rejected before the
guard runs. -/
theorem login_throttle_state_machine (r : Http.AttemptRecord) (now : Nat) (pk pp : Bool)
    (rec? : Option Http.AttemptRecord) :
    (¬ r.lockedUntil = 0 → now < r.lockedUntil →
      Http.loginStep pk now pp (some r) = ⟨.rateLimited, some r, false⟩) ∧
    (¬ (¬ (rec?.getD ⟨0, now, 0⟩).lockedUntil = 0 ∧
          now < (rec?.getD ⟨0, now, 0⟩).lockedUntil) →
      Http.loginStep true now true rec? = ⟨.success, none, true⟩) ∧
    (∀ t1 t2 t3 t4 t5 : Nat,
      t1 ≤ t2 → t2 ≤ t3 → t3 ≤ t4 → t4 ≤ t5 → t5 ≤ t1 + Http.ATTEMPT_WINDOW_MS →
      Http.failSeq [t1, t2, t3, t4] none = some ⟨4, t1, 0⟩ ∧
      Http.failSeq [t1, t2, t3, t4, t5] none = some ⟨5, t1, t5 + Http.LOCK_TIME_MS⟩ ∧
      (∀ t6, t6 < t5 + Http.LOCK_TIME_MS →
        Http.loginStep pk t6 pp (Http.failSeq [t1, t2, t3, t4, t5] none) =
          ⟨.rateLimited, Http.failSeq [t1, t2, t3, t4, t5] none, false⟩)) := by
  refine ⟨?_, ?_, ?_⟩
  · intro hz hlt
    simp [Http.loginStep, hz, hlt]
  · intro hnl
    simp only [Http.loginStep]
    rw [if_neg hnl]
    simp
  · intro t1 t2 t3 t4 t5 h12 h23 h34 h45 hw
    have hwin : Http.ATTEMPT_WINDOW_MS = 600000 := rfl
    have s1 : Http.loginStep false t1 true none =
        ⟨.invalidPassword, some ⟨1, t1, 0⟩, true⟩ := by
      simp only [Http.loginStep, Option.getD_none]
      rw [if_neg (by simp)]
      rw [if_neg (by simp)]
      rw [if_pos (by simp)]
      have hn1 : ¬ t1 - t1 > Http.ATTEMPT_WINDOW_MS := by omega
      rw [if_neg hn1]
      have hn2 : ¬ 0 + 1 ≥ Http.MAX_ATTEMPTS := by decide
      rw [if_neg hn2]
    have step : ∀ (c : Nat) (t : Nat), t1 ≤ t → t ≤ t1 + Http.ATTEMPT_WINDOW_MS →
        c + 1 < 5 →
        Http.loginStep false t true (some ⟨c, t1, 0⟩) =
          ⟨.invalidPassword, some ⟨c + 1, t1, 0⟩, true⟩ := by
      intro c t hle hwt hc
      simp only [Http.loginStep, Option.getD_some]
      rw [if_neg (by simp)]
      rw [if_neg (by simp)]
      rw [if_pos (by simp)]
      have hn1 : ¬ t - t1 > Http.ATTEMPT_WINDOW_MS := by omega
      rw [if_neg hn1]
      rw [if_neg (by simp only [Http.MAX_ATTEMPTS]; omega)]
    have step5 : Http.loginStep false t5 true (some ⟨4, t1, 0⟩) =
        ⟨.invalidPassword, some ⟨5, t1, t5 + Http.LOCK_TIME_MS⟩, true⟩ := by
      simp only [Http.loginStep, Option.getD_some]
      rw [if_neg (by simp)]
      rw [if_neg (by simp)]
      rw [if_pos (by simp)]
      have hn1 : ¬ t5 - t1 > Http.ATTEMPT_WINDOW_MS := by omega
      rw [if_neg hn1]
      rw [if_pos (by decide : 4 + 1 ≥ Http.MAX_ATTEMPTS)]
    have hmax : Http.MAX_ATTEMPTS = 5 := rfl
    have hseq4 : Http.failSeq [t1, t2, t3, t4] none = some ⟨4, t1, 0⟩ := by
      simp only [Http.failSeq, List.foldl_cons, List.foldl_nil, s1]
      rw [step 1 t2 h12 (by omega) (by omega)]
      rw [step 2 t3 (by omega) (by omega) (by omega)]
      rw [step 3 t4 (by omega) (by omega) (by omega)]
    have hseq5 : Http.failSeq [t1, t2, t3, t4, t5] none =
        some ⟨5, t1, t5 + Http.LOCK_TIME_MS⟩ := by
      simp only [Http.failSeq, List.foldl_cons, List.foldl_nil, s1]
      rw [step 1 t2 h12 (by omega) (by omega)]
      rw [step 2 t3 (by omega) (by omega) (by omega)]
      rw [step 3 t4 (by omega) (by omega) (by omega)]
      rw [step5]
    refine ⟨hseq4, hseq5, ?_⟩
    intro t6 h6
    rw [hseq5]
    have hlock : Http.LOCK_TIME_MS = 900000 := rfl
    simp only [Http.loginStep, Option.getD_some]
    rw [if_pos ⟨by omega, by simpa using h6⟩]

/-- C4 witness: failures at instants 0,1,2,3,4 lock the client until
4 + LOCK_TIME_MS, a request at instant 10 is then rate limited without
invoking the guard, and a success at a clear record deletes it. -/
theorem login_throttle_state_machine_witness :
    (¬ (100 : Nat) = 0 ∧ (50 : Nat) < 100 ∧
      ¬ (¬ (0 : Nat) = 0 ∧ (7 : Nat) < 0) ∧
      (0 : Nat) ≤ 1 ∧ (1 : Nat) ≤ 2 ∧ (2 : Nat) ≤ 3 ∧ (3 : Nat) ≤ 4 ∧
      (4 : Nat) ≤ 0 + Http.ATTEMPT_WINDOW_MS ∧ (10 : Nat) < 4 + Http.LOCK_TIME_MS) ∧
    Http.loginStep false 50 true (some ⟨5, 0, 100⟩) = ⟨.rateLimited, some ⟨5, 0, 100⟩, false⟩ ∧
    Http.loginStep true 7 true (some ⟨3, 0, 0⟩) = ⟨.success, none, true⟩ ∧
    Http.failSeq [0, 1, 2, 3] none = some ⟨4, 0, 0⟩ ∧
    Http.failSeq [0, 1, 2, 3, 4] none = some ⟨5, 0, 4 + Http.LOCK_TIME_MS⟩ ∧
    Http.loginStep false 10 true (Http.failSeq [0, 1, 2, 3, 4] none) =
      ⟨.rateLimited, Http.failSeq [0, 1, 2, 3, 4] none, false⟩ :=
  ⟨⟨by decide, by decide, by decide, by decide, by decide, by decide, by decide,
    by decide, by decide⟩,
   (login_throttle_state_machine ⟨5, 0, 100⟩ 50 false true none).1 (by decide) (by decide),
   (login_throttle_state_machine ⟨3, 0, 0⟩ 7 false true (some ⟨3, 0, 0⟩)).2.1 (by decide),
   ((login_throttle_state_machine ⟨0, 0, 0⟩ 0 false true none).2.2 0 1 2 3 4
      (by decide) (by decide) (by decide) (by decide) (by decide)).1,
   ((login_throttle_state_machine ⟨0, 0, 0⟩ 0 false true none).2.2 0 1 2 3 4
      (by decide) (by decide) (by decide) (by decide) (by decide)).2.1,
   ((login_throttle_state_machine ⟨0, 0, 0⟩ 0 false false none).2.2 0 1 2 3 4
      (by decide) (by decide) (by decide) (by decide) (by decide)).2.2 10 (by decide)⟩

theorem mem_if_singleton {c : Prop} [Decidable c] (a m : String) :
    a ∈ (if c then [m] else []) ↔ c ∧ a = m := by
  by_cases h : c <;> simp [h]

theorem if_singleton_eq_nil {c : Prop} [Decidable c] (m : String) :
    (if c then [m] else []) = [] ↔ ¬ c := by
  by_cases h : c <;> simp [h]

theorem validateItemFields_eq (it : Maria.ItemInput) :
    Maria.validateItemFields (some it) =
      (if it.tab = none ∨ it.tab = some "" ∨
          (¬ it.tab = some "raffles" ∧ ¬ it.tab = some "concessions")
       then ["tab is required and must be raffles or concessions"] else []) ++
      (if Maria.strFieldBad it.category then ["category is required"] else []) ++
      (if Maria.strFieldBad it.name then ["name is required"] else []) ++
      (if Maria.strFieldBad it.dataName then ["dataName is required"] else []) ++
      (match it.price with
       | none => ["price must be a non-negative number"]
       | some p => if p < 0 then ["price must be a non-negative number"] else []) := by
  simp only [Maria.validateItemFields, List.nil_append]

theorem tab_condition_iff (tab : Option String) :
    (tab = none ∨ tab = some "" ∨ (¬ tab = some "raffles" ∧ ¬ tab = some "concessions")) ↔
      ¬ (tab = some "raffles" ∨ tab = some "concessions") := by
  cases tab with
  | none => simp
  | some v =>
    by_cases hv : v = "raffles" <;> by_cases hw : v = "concessions" <;> simp_all

/-- C9. Catalog validation is a pure total function that reports every
violated rule at once: each rule message appears in the result exactly
when its rule is violated, independently of the other fields; the result
is empty exactly when tab is raffles or concessions, category, name and
dataName are non-blank, and the price is a present non-negative number;
and the combined bad item of the claim (tab missing or "other", name
empty, price negative) yields all three messages in one call. -/
theorem validateItemFields_all_rules :
    (∀ it : Maria.ItemInput,
      ("tab is required and must be raffles or concessions" ∈ Maria.validateItemFields (some it)
          ↔ ¬ (it.tab = some "raffles" ∨ it.tab = some "concessions")) ∧
      ("category is required" ∈ Maria.validateItemFields (some it)
          ↔ Maria.strFieldBad it.category = true) ∧
      ("name is required" ∈ Maria.validateItemFields (some it)
          ↔ Maria.strFieldBad it.name = true) ∧
      ("dataName is required" ∈ Maria.validateItemFields (some it)
          ↔ Maria.strFieldBad it.dataName = true) ∧
      ("price must be a non-negative number" ∈ Maria.validateItemFields (some it)
          ↔ (it.price = none ∨ ∃ p, it.price = some p ∧ p < 0)) ∧
      (Maria.validateItemFields (some it) = [] ↔
        ((it.tab = some "raffles" ∨ it.tab = some "concessions") ∧
          Maria.strFieldBad it.category = false ∧ Maria.strFieldBad it.name = false ∧
          Maria.strFieldBad it.dataName = false ∧ ∃ p, it.price = some p ∧ 0 ≤ p))) ∧
    Maria.validateItemFields none = ["Missing item payload"] ∧
    Maria.validateItemFields
        (some ⟨some "other", some "Snacks", some "", some "pizza", some (-1)⟩) =
      ["tab is required and must be raffles or concessions", "name is required",
       "price must be a non-negative number"] ∧
    Maria.validateItemFields
        (some ⟨none, some "Snacks", some "", some "pizza", some (-1)⟩) =
      ["tab is required and must be raffles or concessions", "name is required",
       "price must be a non-negative number"] := by
  refine ⟨?_, rfl, by decide, by decide⟩
  intro it
  obtain ⟨tab, cat, nm, dn, pr⟩ := it
  have htab := tab_condition_iff tab
  refine ⟨?_, ?_, ?_, ?_, ?_, ?_⟩
  · rw [validateItemFields_eq]
    cases pr <;> simp [mem_if_singleton, htab]
  · rw [validateItemFields_eq]
    cases pr <;> simp [mem_if_singleton]
  · rw [validateItemFields_eq]
    cases pr <;> simp [mem_if_singleton]
  · rw [validateItemFields_eq]
    cases pr <;> simp [mem_if_singleton]
  · rw [validateItemFields_eq]
    cases pr <;> simp [mem_if_singleton]
  · rw [validateItemFields_eq]
    cases pr with
    | none => simp [List.append_eq_nil, if_singleton_eq_nil]
    | some p =>
      simp only [List.append_eq_nil, if_singleton_eq_nil, htab, not_not, Bool.not_eq_true,
        Int.not_lt, Option.some.injEq, exists_eq_left, exists_eq_left']
      tauto

/-- C1 counterexample (document backend). Starting from counter 41, a
submission whose order-header write throws (step 1) surfaces the error
but leaves the counter already advanced to 42 — the failed submission
consumed an order ID — and a submission whose line-item batch throws
(step 2) leaves an order header visible with no line items. -/
theorem firestore_counter_not_rolled_back :
    (Firestore.submitOrder (some 1) "ts" ⟨8, "Cash", [⟨"Pizza Slice", 2, 3⟩]⟩
        ⟨true, 41, [], []⟩).1.count = 42 ∧
    (⟨true, 41, [], []⟩ : Firestore.Db).count = 41 ∧
    (Firestore.submitOrder (some 1) "ts" ⟨8, "Cash", [⟨"Pizza Slice", 2, 3⟩]⟩
        ⟨true, 41, [], []⟩).2 = Except.error "order document write failed" ∧
    ¬ (Firestore.submitOrder (some 2) "ts" ⟨8, "Cash", [⟨"Pizza Slice", 2, 3⟩]⟩
        ⟨true, 41, [], []⟩).1.orders = [] ∧
    (Firestore.submitOrder (some 2) "ts" ⟨8, "Cash", [⟨"Pizza Slice", 2, 3⟩]⟩
        ⟨true, 41, [], []⟩).1.transactions = [] := by
  exact ⟨by decide, rfl, rfl, by decide, by decide⟩

/-- C1 (amended). For the relational backend every failure inside the
submission — the locked counter read, the counter update, the header
insert, any line-item insert, or the commit itself, i.e. any step
k ≤ 3 + number of items — rolls the whole unit back: counter, orders and
transactions are unchanged, the error is surfaced to the caller, and a
retry succeeds with the very order ID the failed attempt would have used,
so no order ID is consumed. -/
theorem maria_submit_atomic_rollback (k now : Nat) (od : OrderData) (db : Maria.Db)
    (h : k ≤ 3 + od.items.length) :
    (Maria.submitOrder (some k) now od db).1.counter = db.counter ∧
    (Maria.submitOrder (some k) now od db).1.orders = db.orders ∧
    (Maria.submitOrder (some k) now od db).1.transactions = db.transactions ∧
    (∃ e, (Maria.submitOrder (some k) now od db).2 = Except.error e) ∧
    (Maria.submitOrder none now od ((Maria.submitOrder (some k) now od db).1)).2 =
      Except.ok (od, formatOrderId (db.counter + 1)) := by
  obtain ⟨h1, h2⟩ := Maria.submitOrder_fail_eq k now od db h
  refine ⟨by rw [h1], by rw [h1], by rw [h1], h2, ?_⟩
  rw [h1, Maria.submitOrder_none_eq]

/-- C1 witness: failure at the header-insert step (k = 2) of a one-item
submission against counter 41. -/
theorem maria_submit_atomic_rollback_witness :
    ((2 : Nat) ≤ 3 + (⟨8, "Cash", [⟨"Pizza Slice", 2, 3⟩]⟩ : OrderData).items.length) ∧
    (Maria.submitOrder (some 2) 0 ⟨8, "Cash", [⟨"Pizza Slice", 2, 3⟩]⟩
        ⟨41, [], []⟩).1.counter = 41 ∧
    (Maria.submitOrder (some 2) 0 ⟨8, "Cash", [⟨"Pizza Slice", 2, 3⟩]⟩
        ⟨41, [], []⟩).1.orders = [] ∧
    (Maria.submitOrder none 0 ⟨8, "Cash", [⟨"Pizza Slice", 2, 3⟩]⟩
        ((Maria.submitOrder (some 2) 0 ⟨8, "Cash", [⟨"Pizza Slice", 2, 3⟩]⟩ ⟨41, [], []⟩).1)).2 =
      Except.ok ((⟨8, "Cash", [⟨"Pizza Slice", 2, 3⟩]⟩ : OrderData), formatOrderId 42) :=
  ⟨by decide,
   (maria_submit_atomic_rollback 2 0 ⟨8, "Cash", [⟨"Pizza Slice", 2, 3⟩]⟩ ⟨41, [], []⟩
      (by decide)).1,
   (maria_submit_atomic_rollback 2 0 ⟨8, "Cash", [⟨"Pizza Slice", 2, 3⟩]⟩ ⟨41, [], []⟩
      (by decide)).2.1,
   (maria_submit_atomic_rollback 2 0 ⟨8, "Cash", [⟨"Pizza Slice", 2, 3⟩]⟩ ⟨41, [], []⟩
      (by decide)).2.2.2.2⟩

/-- C2. A serialized batch of N fault-free submissions starting from
counter value c: in commit order the i-th submission observes counter
c+i (all observed values distinct — no two submissions see the same
value) and is assigned the ID formatted from c+i+1; the assigned IDs are
pairwise distinct and as a set are exactly the image of {c+1, …, c+N};
the counter ends at c+N. The same holds for the document backend from
its visible counter value. -/
theorem batch_order_ids_gapless (now : Nat) (ts : String) (ods : List OrderData)
    (db : Maria.Db) (fdb : Firestore.Db) :
    ((Maria.runBatch now db ods).2 =
      (List.range ods.length).map
        (fun i => (db.counter + i, formatOrderId (db.counter + i + 1)))) ∧
    ((Maria.runBatch now db ods).2.map Prod.snd).Nodup ∧
    ((Maria.runBatch now db ods).2.map Prod.fst).Nodup ∧
    (∀ id : String, id ∈ (Maria.runBatch now db ods).2.map Prod.snd ↔
      ∃ v, db.counter + 1 ≤ v ∧ v ≤ db.counter + ods.length ∧ id = formatOrderId v) ∧
    (Maria.runBatch now db ods).1.counter = db.counter + ods.length ∧
    ((Firestore.runBatch ts fdb ods).2 =
      (List.range ods.length).map
        (fun i => (fdb.counterValue + i, formatOrderId (fdb.counterValue + i + 1)))) ∧
    (Firestore.runBatch ts fdb ods).1.counterValue = fdb.counterValue + ods.length := by
  obtain ⟨hm1, hm2⟩ := Maria.runBatch_spec now ods db
  obtain ⟨hf1, hf2⟩ := Firestore.fs_runBatch_spec ts ods fdb
  have hinj2 : Function.Injective (fun i : Nat => formatOrderId (db.counter + i + 1)) := by
    intro a b hab
    have := formatOrderId_injective _ _ hab
    omega
  have hinj1 : Function.Injective (fun i : Nat => db.counter + i) := by
    intro a b hab
    have h2 : db.counter + a = db.counter + b := hab
    omega
  refine ⟨hm1, ?_, ?_, ?_, hm2, hf1, hf2⟩
  · rw [hm1, List.map_map]
    exact (List.nodup_range _).map hinj2
  · rw [hm1, List.map_map]
    exact (List.nodup_range _).map hinj1
  · intro id
    rw [hm1, List.map_map]
    simp only [List.mem_map, List.mem_range, Function.comp_apply]
    constructor
    · rintro ⟨i, hi, rfl⟩
      exact ⟨db.counter + i + 1, by omega, by omega, rfl⟩
    · rintro ⟨v, hv1, hv2, rfl⟩
      refine ⟨v - db.counter - 1, by omega, ?_⟩
      have hveq : db.counter + (v - db.counter - 1) + 1 = v := by omega
      rw [hveq]

/-- C6. The assigned order identifier is counter+1 rendered in decimal
and left-padded with zeros to width 4; identifiers of values below 10000
have length exactly 4, values from 10000 up are rendered unpadded and
untruncated (the format grows), the format is injective (no wrapping or
collision), and the concrete examples of the spec hold: counter 41 gives
"0042", counter 9999 gives "10000". This is the identifier both the
relational and the document submitOrder return. -/
theorem order_id_format_spec (now : Nat) (ts : String) (od : OrderData) (db : Maria.Db)
    (fdb : Firestore.Db) :
    (Maria.submitOrder none now od db).2 = Except.ok (od, formatOrderId (db.counter + 1)) ∧
    (Firestore.submitOrder none ts od fdb).2 =
      Except.ok (od, formatOrderId (fdb.counterValue + 1)) ∧
    formatOrderId (db.counter + 1) = padStart (Nat.repr (db.counter + 1)) 4 '0' ∧
    (db.counter + 1 < 10000 → (formatOrderId (db.counter + 1)).length = 4) ∧
    (10000 ≤ db.counter + 1 → formatOrderId (db.counter + 1) = Nat.repr (db.counter + 1)) ∧
    (∀ c1 c2 : Nat, formatOrderId c1 = formatOrderId c2 → c1 = c2) ∧
    formatOrderId (41 + 1) = "0042" ∧
    formatOrderId (9999 + 1) = "10000" ∧
    (10000 ≤ db.counter + 1 → 4 < (formatOrderId (db.counter + 1)).length) := by
  refine ⟨?_, ?_, rfl, ?_, ?_, formatOrderId_injective, by decide, by decide, ?_⟩
  · rw [Maria.submitOrder_none_eq]
  · rw [Firestore.fs_submitOrder_none_eq]
  · exact formatOrderId_length_of_lt _
  · exact formatOrderId_eq_repr_of_ge _
  · exact formatOrderId_length_gt_of_ge _

/-- C6 witness: counters 41 and 9999. -/
theorem order_id_format_spec_witness :
    ((⟨41, [], []⟩ : Maria.Db).counter + 1 < 10000) ∧
    (10000 ≤ (⟨9999, [], []⟩ : Maria.Db).counter + 1) ∧
    (Maria.submitOrder none 0 ⟨8, "Cash", []⟩ ⟨41, [], []⟩).2 =
      Except.ok ((⟨8, "Cash", []⟩ : OrderData), formatOrderId 42) ∧
    (formatOrderId (41 + 1)).length = 4 ∧
    formatOrderId (9999 + 1) = Nat.repr (9999 + 1) ∧
    4 < (formatOrderId (9999 + 1)).length :=
  ⟨by decide, by decide,
   (order_id_format_spec 0 "ts" ⟨8, "Cash", []⟩ ⟨41, [], []⟩ ⟨true, 0, [], []⟩).1,
   (order_id_format_spec 0 "ts" ⟨8, "Cash", []⟩ ⟨41, [], []⟩ ⟨true, 0, [], []⟩).2.2.2.1
     (by decide),
   (order_id_format_spec 0 "ts" ⟨8, "Cash", []⟩ ⟨9999, [], []⟩ ⟨true, 0, [], []⟩).2.2.2.2.1
     (by decide),
   (order_id_format_spec 0 "ts" ⟨8, "Cash", []⟩ ⟨9999, [], []⟩ ⟨true, 0, [], []⟩).2.2.2.2.2.2.2.2
     (by decide)⟩

/-- C8. Each persisted line-item row carries the newly assigned order ID
and a line total computed by the server as the product of the item's own
price and quantity; changing the client-supplied totalAmount aggregate
changes no line-item row. Both backends. -/
theorem line_total_server_computed (now : Nat) (ts : String) (od : OrderData) (x : Int)
    (db : Maria.Db) (fdb : Firestore.Db) :
    (Maria.submitOrder none now od db).1.transactions =
      db.transactions ++ od.items.map (fun it =>
        ⟨formatOrderId (db.counter + 1), it.name, it.qty, it.price * it.qty⟩) ∧
    (Maria.submitOrder none now { od with totalAmount := x } db).1.transactions =
      (Maria.submitOrder none now od db).1.transactions ∧
    (Firestore.submitOrder none ts od fdb).1.transactions =
      fdb.transactions ++ od.items.map (fun it =>
        ⟨formatOrderId (fdb.counterValue + 1), it.name, it.qty, it.price * it.qty⟩) := by
  refine ⟨?_, ?_, ?_⟩
  · rw [Maria.submitOrder_none_eq]
    rfl
  · rw [Maria.submitOrder_none_eq, Maria.submitOrder_none_eq]
    rfl
  · rw [Firestore.fs_submitOrder_none_eq]


/-- C10. The order header stores the client-supplied totalAmount verbatim
and the response echoes the submitted payload unchanged; the stored total
is never recomputed from the line items, so it can differ from the sum of
the server-computed line totals, as the concrete submission with
totalAmount 100 and a single line totalling 6 shows. Both backends. -/
theorem total_amount_passthrough (now : Nat) (ts : String) (od : OrderData)
    (db : Maria.Db) (fdb : Firestore.Db) :
    (Maria.submitOrder none now od db).1.orders =
      db.orders ++ [⟨formatOrderId (db.counter + 1), od.totalAmount, od.paymentType,
        (if od.paymentType = "Venmo" then "pending" else "paid"), now⟩] ∧
    (Maria.submitOrder none now od db).2 = Except.ok (od, formatOrderId (db.counter + 1)) ∧
    (Firestore.submitOrder none ts od fdb).1.orders =
      fdb.orders ++ [⟨formatOrderId (fdb.counterValue + 1), od.totalAmount, od.paymentType, ts,
        (if od.paymentType = "Venmo" then "pending" else "paid")⟩] ∧
    ((Maria.submitOrder none 0 ⟨100, "Cash", [⟨"Pizza", 2, 3⟩]⟩ ⟨41, [], []⟩).1.orders.map
        (fun o => o.totalAmount) = [100] ∧
     (Maria.submitOrder none 0 ⟨100, "Cash", [⟨"Pizza", 2, 3⟩]⟩ ⟨41, [], []⟩).1.transactions.map
        (fun t => t.total) = [6]) := by
  refine ⟨?_, ?_, ?_, by decide, by decide⟩
  · rw [Maria.submitOrder_none_eq]
    rfl
  · rw [Maria.submitOrder_none_eq]
  · rw [Firestore.fs_submitOrder_none_eq]

/-- C7 (amended). For the relational backend, under the unique-orderId
schema constraint, getOrders returns the stored orders newest-first
(reverse primary-key order), each carrying, regrouped from the normalized
transactions table in insertion order, those of its line items whose
stored name is non-empty (rows whose item column is NULL — the LEFT JOIN
miss — or the empty string are skipped by the JavaScript truthiness
test); an order with no such rows still appears, with an empty item list.
The document backend performs no regrouping at all: its getOrders returns
the raw order documents in stored collection order — no line items are
joined (the result is independent of the transactions collection) and no
newest-first ordering is applied. -/
theorem getOrders_regroup_spec (db : Maria.Db) (fdb : Firestore.Db)
    (hnd : (db.orders.map (fun o => o.orderId)).Nodup) :
    (Maria.getOrders db =
      db.orders.reverse.map (fun o =>
        ⟨o.orderId, o.totalAmount, o.paymentType, o.status, o.timestamp,
         ((db.transactions.filter (fun t => t.orderId = o.orderId)).filter
            (fun t => ¬ t.item = "")).map (fun t => ⟨t.item, t.quantity, t.total⟩)⟩)) ∧
    Firestore.getOrders fdb = fdb.orders ∧
    (∀ txs : List Firestore.TxDoc,
      Firestore.getOrders ⟨fdb.counterExists, fdb.count, fdb.orders, txs⟩ =
        Firestore.getOrders fdb) := by
  refine ⟨?_, ?_, ?_⟩
  · show Maria.getOrders db = db.orders.reverse.map (Maria.outOf db)
    rw [Maria.getOrders, Maria.leftJoinRows]
    rw [Maria.foldl_flatMap_blocks db db.orders.reverse [] (by simp) ?_]
    · simp
    · rw [show db.orders.reverse.map (fun o => o.orderId)
          = (db.orders.map (fun o => o.orderId)).reverse from (List.map_reverse _ _)]
      exact List.nodup_reverse.mpr hnd
  · simp [Firestore.getOrders]
  · intro txs
    simp [Firestore.getOrders]

/-- C7 witness. Relational: two stored orders, the newer one with no
transactions rows, the older with one; the result lists the newer first
with an empty item list. Document backend: the raw order documents come
back as stored. -/
theorem getOrders_regroup_spec_witness :
    (((⟨5, [⟨"0001", 5, "Cash", "paid", 10⟩, ⟨"0002", 7, "Venmo", "pending", 20⟩],
        [⟨"0001", "Pizza", 2, 6⟩]⟩ : Maria.Db).orders.map (fun o => o.orderId)).Nodup) ∧
    Maria.getOrders
        ⟨5, [⟨"0001", 5, "Cash", "paid", 10⟩, ⟨"0002", 7, "Venmo", "pending", 20⟩],
         [⟨"0001", "Pizza", 2, 6⟩]⟩ =
      [⟨"0002", 7, "Venmo", "pending", 20, []⟩,
       ⟨"0001", 5, "Cash", "paid", 10, [⟨"Pizza", 2, 6⟩]⟩] ∧
    Firestore.getOrders
        ⟨true, 2, [⟨"0001", 5, "Cash", "t1", "paid"⟩, ⟨"0002", 7, "Venmo", "t2", "pending"⟩],
         [⟨"0001", "Pizza", 2, 6⟩]⟩ =
      [⟨"0001", 5, "Cash", "t1", "paid"⟩, ⟨"0002", 7, "Venmo", "t2", "pending"⟩] :=
  ⟨by decide,
   ((getOrders_regroup_spec
      ⟨5, [⟨"0001", 5, "Cash", "paid", 10⟩, ⟨"0002", 7, "Venmo", "pending", 20⟩],
       [⟨"0001", "Pizza", 2, 6⟩]⟩
      ⟨true, 2, [⟨"0001", 5, "Cash", "t1", "paid"⟩, ⟨"0002", 7, "Venmo", "t2", "pending"⟩],
       [⟨"0001", "Pizza", 2, 6⟩]⟩ (by decide)).1).trans (by decide),
   ((getOrders_regroup_spec
      ⟨5, [⟨"0001", 5, "Cash", "paid", 10⟩, ⟨"0002", 7, "Venmo", "pending", 20⟩],
       [⟨"0001", "Pizza", 2, 6⟩]⟩
      ⟨true, 2, [⟨"0001", 5, "Cash", "t1", "paid"⟩, ⟨"0002", 7, "Venmo", "t2", "pending"⟩],
       [⟨"0001", "Pizza", 2, 6⟩]⟩ (by decide)).2.1).trans (by decide)⟩

/-- C7 counterexample, both cited backends. Relational: a stored line
item whose name is the empty string is dropped by the truthiness test of
the regrouping loop — the store holds one transactions row for order
0001, yet the returned order carries an empty item list, so not every
stored line item is regrouped. Document backend: with two orders stored
oldest-first and a transactions document present, getOrders returns
exactly the raw header documents in stored order — the older order
first, not newest-first, and no line items anywhere in the result (the
result is unchanged when the transactions collection is emptied). -/
theorem getOrders_drops_empty_name_item :
    (Maria.getOrders ⟨1, [⟨"0001", 5, "Cash", "paid", 10⟩], [⟨"0001", "", 1, 2⟩]⟩).map
        (fun o => o.items) = [[]] ∧
    (⟨1, [⟨"0001", 5, "Cash", "paid", 10⟩], [⟨"0001", "", 1, 2⟩]⟩ :
        Maria.Db).transactions.length = 1 ∧
    Firestore.getOrders
        ⟨true, 2, [⟨"0001", 5, "Cash", "t1", "paid"⟩, ⟨"0002", 7, "Venmo", "t2", "pending"⟩],
         [⟨"0001", "Pizza", 2, 6⟩]⟩ =
      [⟨"0001", 5, "Cash", "t1", "paid"⟩, ⟨"0002", 7, "Venmo", "t2", "pending"⟩] ∧
    Firestore.getOrders
        ⟨true, 2, [⟨"0001", 5, "Cash", "t1", "paid"⟩, ⟨"0002", 7, "Venmo", "t2", "pending"⟩],
         [⟨"0001", "Pizza", 2, 6⟩]⟩ =
      Firestore.getOrders
        ⟨true, 2, [⟨"0001", 5, "Cash", "t1", "paid"⟩, ⟨"0002", 7, "Venmo", "t2", "pending"⟩],
         []⟩ := by
  exact ⟨by decide, rfl, by decide, by decide⟩

end DodgeballSale
